import Mathlib

/-
Verification of the Progress & Achievement Analytics Engine of the
smartgoals backend (directory src/api of the repository).

The Python sources are shallowly embedded as follows.

* MongoDB collections become Lean lists of structures; `find_one(filter)`
  becomes `List.find?` with the corresponding Boolean predicate,
  `update_one`/`find_one_and_update` become replacement of the first
  matching element, `insert_one` appends.
* Python integers become `Int`/`Nat`.  The float expression
  `int(round((completed / total) * 100))` is modelled as exact rational
  arithmetic on the fraction `100*completed/total`, with Python's builtin
  `round` (banker's rounding, i.e. round half to even) modelled by
  `roundHalfEven`, and `int(...)` truncation modelled by `Int.tdiv`.
* Calendar dates become `Int` day numbers: `d2 - d1 = 1` models
  "(d2.date() - d1.date()).days == 1"; `datetime.now(timezone.utc).date()`
  becomes an explicit `today` parameter, `datetime.now(timezone.utc)`
  timestamps become an explicit `now : Int` parameter.
* Code that can raise returns `Except`/`Option`; sites where Python would
  raise `ZeroDivisionError` go through `checkedRoundPct`/`checkedDiv`/
  `checkedTruncPct`, which return `none` exactly when the divisor is zero.
-/

namespace SmartGoals

/-- Model of Python's builtin `round` applied to the exact rational `n / d`
(`d > 0` at every use site): round half to even (banker's rounding).
`q = n / d` is the floor (Lean `Int` division is Euclidean, which floors for
positive divisors) and `r = n % d` the nonnegative remainder; the fractional
part `r/d` is compared with `1/2` by comparing `2*r` with `d`. -/
def roundHalfEven (n d : ℤ) : ℤ :=
  let q := n / d
  let r := n % d
  if 2 * r < d then q
  else if d < 2 * r then q + 1
  else if q % 2 = 0 then q else q + 1

/-- Model of `int(round((c / t) * 100))` (src/api/db_queries.py lines 68,
687, 710) guarded against a zero divisor: `none` models `ZeroDivisionError`. -/
def checkedRoundPct (c t : ℤ) : Option ℤ :=
  if t = 0 then none else some (roundHalfEven (100 * c) t)

/-- Model of `int((c / t) * 100)` (truncating `int(...)`, values here are
nonnegative); `none` models `ZeroDivisionError`. -/
def checkedTruncPct (c t : ℤ) : Option ℤ :=
  if t = 0 then none else some (Int.tdiv (100 * c) t)

/-- Model of Python's floor division `a // b`; `none` models
`ZeroDivisionError`.  (`Int` `/` is Euclidean division, which agrees with
floor division for the positive divisors occurring here.) -/
def checkedDiv (a b : ℤ) : Option ℤ :=
  if b = 0 then none else some (a / b)

/-! ### Data model (documents of the `goals`, `weekly_goals`, `daily_tasks`,
`achievements` and `achievement_definitions` collections).  Fields that the
engine never reads (description, category, SMART fields, priority,
estimatedHours, ...) are elided; they are carried through updates unchanged
in the source as well. -/

structure Goal where
  id : String
  userId : String
  status : String
  progress : ℤ
  createdAt : ℤ
  updatedAt : ℤ
deriving DecidableEq

structure WeeklyGoal where
  id : String
  goalId : String
  progress : ℤ
  updatedAt : ℤ
deriving DecidableEq

structure DailyTask where
  id : String
  goalId : String
  weeklyGoalId : String
  title : String
  completed : Bool
  date : Option ℤ
  updatedAt : ℤ
deriving DecidableEq

/-- Replace the first element satisfying `p` by its image under `f`:
the effect of Mongo `update_one` / `find_one_and_update` on a collection. -/
def updateFirstBy {α : Type} (p : α → Bool) (f : α → α) : List α → List α
  | [] => []
  | a :: rest => if p a then f a :: rest else a :: updateFirstBy p f rest

/-! ### Progress Calculator (src/api/db_queries.py lines 669-762) -/

/-- `calculate_goal_progress`: the two `count_documents` calls become counts
of list filters; zero tasks short-circuits to 0 before any division. -/
def calculate_goal_progress (tasks : List DailyTask) (goalId : String) : ℤ :=
  let total := (tasks.filter (fun t => t.goalId == goalId)).length
  if total = 0 then 0
  else
    let completed := (tasks.filter (fun t => t.goalId == goalId && t.completed)).length
    roundHalfEven (100 * completed) total

/-- `calculate_weekly_goal_progress`: identical shape, filtering on
`weeklyGoalId`. -/
def calculate_weekly_goal_progress (tasks : List DailyTask) (weeklyGoalId : String) : ℤ :=
  let total := (tasks.filter (fun t => t.weeklyGoalId == weeklyGoalId)).length
  if total = 0 then 0
  else
    let completed := (tasks.filter (fun t => t.weeklyGoalId == weeklyGoalId && t.completed)).length
    roundHalfEven (100 * completed) total

/-! ### Streak Calculator (src/api/db_queries.py lines 258-327)

`calculate_streaks` first collects the distinct dates of completed tasks;
the part starting at `dates.sort()` is modelled by `calculate_streaks`
below over the list of parsed dates, and the surrounding goal/date
extraction by `calculate_streaks_user`. -/

/-- The `for i, date in enumerate(dates)` loop of `calculate_streaks`:
`prev` is `dates[i-1]`, `longest` is `longest_streak`, `temp` is
`temp_streak`; the trailing `longest_streak = max(longest_streak,
temp_streak)` is the `[]` case. -/
def longestLoop : ℤ → ℕ → ℕ → List ℤ → ℕ
  | _, longest, temp, [] => max longest temp
  | prev, longest, temp, d :: rest =>
    if d - prev = 1 then longestLoop d longest (temp + 1) rest
    else longestLoop d (max longest temp) 1 rest

/-- The backward walk `for i in range(len(dates) - 2, -1, -1)` of
`calculate_streaks`, expressed over the reversed date list: `upper` is
`dates[i+1]`, the head of the list is `dates[i]`; the walk starts with
`current_streak = 1` and stops at the first non-unit gap. -/
def backWalk : ℤ → List ℤ → ℕ
  | _, [] => 1
  | upper, d :: rest => if upper - d = 1 then 1 + backWalk d rest else 1

/-- The current-streak computation on a nonempty sorted date list: walk
backward from `dates[-1]`. -/
def backWalkRev (dates : List ℤ) : ℕ :=
  match dates.reverse with
  | [] => 0
  | last :: before => backWalk last before

/-- Core of `calculate_streaks` on the list of distinct completion dates
(the function sorts them itself, modelling `dates.sort()`); the `[]` case
models the early `return {"currentStreak": 0, "longestStreak": 0}` for a
user with no completed dated tasks.  `rest.getLastD d` is `dates[-1]` and
`today - … ≤ 1` is `days_since_last <= 1`. -/
def calculate_streaks (dates : List ℤ) (today : ℤ) : ℕ × ℕ :=
  match List.insertionSort (· ≤ ·) dates with
  | [] => (0, 0)
  | d :: rest =>
    (if today - rest.getLastD d ≤ 1 then backWalkRev (d :: rest) else 0,
     longestLoop d 0 1 rest)

/-- The goal-id and completed-date extraction of `calculate_streaks`: the
aggregation groups completed, dated tasks of the user's goals by date
(`dedup` models the `$group` on `"$date"`). -/
def calculate_streaks_user (goals : List Goal) (tasks : List DailyTask)
    (uid : String) (today : ℤ) : ℕ × ℕ :=
  let goalIds := (goals.filter (fun g => g.userId == uid)).map (fun g => g.id)
  if goalIds = [] then (0, 0)
  else
    let ds := ((tasks.filter
        (fun t => goalIds.contains t.goalId && t.completed && t.date.isSome)).filterMap
        (fun t => t.date)).dedup
    if ds = [] then (0, 0) else calculate_streaks ds today

/-! ### Statistics Aggregator (src/api/db_queries.py lines 8-99) -/

structure UserStats where
  totalGoals : ℕ
  activeGoals : ℕ
  completedGoals : ℕ
  pausedGoals : ℕ
  totalTasks : ℕ
  completedTasks : ℕ
  successRate : ℤ
  avgCompletionTime : ℤ
deriving DecidableEq

/-- `get_user_analytics_aggregated`: the `$match`/`$lookup`/`$group`
pipeline becomes filters and sums over the goal and task lists; an empty
aggregation result (no goals for the user) yields the all-zero dictionary.
Goal timestamps are modelled as always present and parseable (the
`try`/`except` around ISO parsing is dead in that model). -/
def get_user_analytics_aggregated (goals : List Goal) (tasks : List DailyTask)
    (uid : String) : Option UserStats :=
  let ugoals := goals.filter (fun g => g.userId == uid)
  if ugoals = [] then
    some { totalGoals := 0, activeGoals := 0, completedGoals := 0, pausedGoals := 0,
           totalTasks := 0, completedTasks := 0, successRate := 0, avgCompletionTime := 0 }
  else
    let totalTasks := (ugoals.map (fun g => (tasks.filter (fun t => t.goalId == g.id)).length)).sum
    let completedTasks := (ugoals.map
        (fun g => (tasks.filter (fun t => t.goalId == g.id && t.completed)).length)).sum
    do
    let successRate ← if 0 < totalTasks then checkedRoundPct completedTasks totalTasks else some 0
    let cgoals := ugoals.filter (fun g => g.status == "completed")
    let totalDays := (cgoals.map (fun g => max 1 (g.updatedAt - g.createdAt))).sum
    let avgCompletionTime ← if cgoals = [] then some 0 else checkedDiv totalDays cgoals.length
    some { totalGoals := ugoals.length,
           activeGoals := (ugoals.filter (fun g => g.status == "active")).length,
           completedGoals := (ugoals.filter (fun g => g.status == "completed")).length,
           pausedGoals := (ugoals.filter (fun g => g.status == "paused")).length,
           totalTasks := totalTasks, completedTasks := completedTasks,
           successRate := successRate, avgCompletionTime := avgCompletionTime }

structure ProgressStats where
  totalGoals : ℕ
  completedGoals : ℕ
  activeGoals : ℕ
  totalTasks : ℕ
  completedTasks : ℕ
  currentStreak : ℕ
  longestStreak : ℕ
  thisWeekProgress : ℤ
  avgCompletionTime : ℤ
deriving DecidableEq

/-- `get_progress_stats` (src/api/routers/analytics.py lines 42-68): the
data dictionary of the success response. -/
def get_progress_stats (goals : List Goal) (tasks : List DailyTask)
    (uid : String) (today : ℤ) : Option ProgressStats := do
  let stats ← get_user_analytics_aggregated goals tasks uid
  let streaks := calculate_streaks_user goals tasks uid today
  let thisWeekProgress ←
    if 0 < stats.totalTasks then checkedTruncPct stats.completedTasks stats.totalTasks
    else some 0
  some { totalGoals := stats.totalGoals, completedGoals := stats.completedGoals,
         activeGoals := stats.activeGoals, totalTasks := stats.totalTasks,
         completedTasks := stats.completedTasks, currentStreak := streaks.1,
         longestStreak := streaks.2, thisWeekProgress := thisWeekProgress,
         avgCompletionTime := stats.avgCompletionTime }

/-! ### Achievement Evaluator (src/api/db_queries.py lines 363-421,
src/api/routers/analytics.py lines 142-208) -/

/-- The `achievement_data` dictionary built by the routers.  `progress` and
`target` are optional because the source reads them with
`achievement_data.get(..., default)`; the metadata entries (title,
description, icon, category) are carried through unchanged and elided. -/
structure AchievementData where
  achievementId : String
  progress : Option ℤ
  target : Option ℤ
deriving DecidableEq

/-- A document of the `achievements` collection.  `progress`/`target` are
optional because a document created from data lacking those keys lacks
them too; `unlockedAt = none` models both a null and a missing field
(Mongo's `{"unlockedAt": {"$ne": None}}` filter rejects both). -/
structure StoredAch where
  id : String
  userId : String
  achievementId : String
  progress : Option ℤ
  target : Option ℤ
  unlockedAt : Option ℤ
  createdAt : ℤ
  updatedAt : ℤ
deriving DecidableEq

/-- The `find_one({"userId": uid, "achievementId": aid})` filter. -/
def achKey (uid aid : String) (a : StoredAch) : Bool :=
  a.userId == uid && a.achievementId == aid

/-- The `find_one({"userId": uid, "achievementId": aid,
"unlockedAt": {"$ne": None}})` filter. -/
def unlockedKey (uid aid : String) (a : StoredAch) : Bool :=
  a.userId == uid && a.achievementId == aid && a.unlockedAt.isSome

/-- `create_or_update_achievement`: returns the document the function
returns together with the updated collection.  In the update branch the
re-`find_one` after `update_one` is the replaced first match itself, so it
is returned directly. -/
def create_or_update_achievement (achs : List StoredAch) (uid : String)
    (data : AchievementData) (now : ℤ) : StoredAch × List StoredAch :=
  match achs.find? (achKey uid data.achievementId) with
  | some ex =>
    let upd : StoredAch :=
      { ex with progress := some (data.progress.getD (ex.progress.getD 0)),
                updatedAt := now,
                unlockedAt :=
                  if ex.unlockedAt = none ∧ data.target.getD 1 ≤ data.progress.getD 0
                  then some now else ex.unlockedAt }
    (upd, updateFirstBy (achKey uid data.achievementId) (fun _ => upd) achs)
  | none =>
    let newAch : StoredAch :=
      { id := uid ++ "_" ++ data.achievementId, userId := uid,
        achievementId := data.achievementId, progress := data.progress,
        target := data.target,
        unlockedAt := if data.target.getD 1 ≤ data.progress.getD 0 then some now else none,
        createdAt := now, updatedAt := now }
    (newAch, achs ++ [newAch])

/-- A document of the `achievement_definitions` catalog (title,
description, icon, category metadata elided; `isActive` is the fetch
filter, so the definition lists below are the active definitions). -/
structure AchievementDefinition where
  id : String
  triggerType : String
  triggerValue : ℤ
deriving DecidableEq

/-- The `trigger_type` dispatch shared by `check_achievements`,
`get_achievements` and `_check_achievements_after_task_completion`;
`streaks.1` is `streaks["currentStreak"]`. -/
def evalProgress (stats : UserStats) (streaks : ℕ × ℕ)
    (d : AchievementDefinition) : ℤ :=
  if d.triggerType == "goal_count" then stats.totalGoals
  else if d.triggerType == "completed_goal_count" then stats.completedGoals
  else if d.triggerType == "completed_task_count" then stats.completedTasks
  else if d.triggerType == "streak_count" then streaks.1
  else if d.triggerType == "monthly_task_count" then stats.completedTasks
  else 0

/-- One iteration of the `for definition in definitions` loop of
`check_achievements` (src/api/routers/analytics.py lines 157-200): returns
the updated collection and the documents appended to `newly_unlocked`. -/
def checkStep (uid : String) (stats : UserStats) (streaks : ℕ × ℕ) (now : ℤ)
    (achs : List StoredAch) (d : AchievementDefinition) :
    List StoredAch × List StoredAch :=
  let progress := evalProgress stats streaks d
  if d.triggerValue ≤ progress then
    match achs.find? (unlockedKey uid d.id) with
    | some _ => (achs, [])
    | none =>
      let res := create_or_update_achievement achs uid
        { achievementId := d.id, progress := some progress, target := some d.triggerValue } now
      (res.2, if res.1.unlockedAt.isSome then [res.1] else [])
  else (achs, [])

/-- `check_achievements` (POST `/progress/check-achievements`): the loop
over the catalog, threading the achievements collection and accumulating
`newly_unlocked`.  The statistics and streak snapshot are parameters (the
endpoint recomputes them from the task store; two calls with unchanged
tasks receive the same values). -/
def check_achievements (uid : String) (stats : UserStats) (streaks : ℕ × ℕ)
    (now : ℤ) : List AchievementDefinition → List StoredAch →
    List StoredAch × List StoredAch
  | [], achs => (achs, [])
  | d :: defs, achs =>
    let step := checkStep uid stats streaks now achs d
    let rest := check_achievements uid stats streaks now defs step.1
    (rest.1, step.2 ++ rest.2)

/-! ### Task router (src/api/routers/tasks.py) and progress write-back
(src/api/db_queries.py lines 715-762) -/

/-- `UpdateTaskRequest` (src/api/validation.py lines 31-38) restricted to
the fields the claims exercise; the other optional fields (description,
priority, estimatedHours, date) are handled identically by the router. -/
structure UpdateTaskRequest where
  title : Option String
  completed : Option Bool
deriving DecidableEq

/-- The persistent store as seen by the task router. `activities` counts
the documents of the `activities` collection. -/
structure SysState where
  goals : List Goal
  weeklyGoals : List WeeklyGoal
  tasks : List DailyTask
  achievements : List StoredAch
  activities : ℕ
deriving DecidableEq

inductive ApiError where
  | notFound (resource id : String)
  | accessDenied (msg : String)
deriving DecidableEq

/-- The `$set` of the filtered `update_dict`: set the provided fields and
bump `updatedAt` when the dictionary is nonempty. -/
def applyTaskUpdate (t : DailyTask) (u : UpdateTaskRequest) (now : ℤ) : DailyTask :=
  let t1 := match u.title with | some s => { t with title := s } | none => t
  let t2 := match u.completed with | some b => { t1 with completed := b } | none => t1
  if u.title.isSome || u.completed.isSome then { t2 with updatedAt := now } else t2

/-- `update_goal_progress`: recompute and write back the owning goal's
progress, bumping `updatedAt`. -/
def update_goal_progress (st : SysState) (goalId : String) (now : ℤ) : SysState :=
  let p := calculate_goal_progress st.tasks goalId
  let gs := updateFirstBy (fun g => g.id == goalId)
    (fun g => { g with progress := p, updatedAt := now }) st.goals
  { st with goals := gs }

/-- `update_weekly_goal_progress`: the weekly-goal counterpart. -/
def update_weekly_goal_progress (st : SysState) (weeklyGoalId : String) (now : ℤ) : SysState :=
  let p := calculate_weekly_goal_progress st.tasks weeklyGoalId
  let ws := updateFirstBy (fun w => w.id == weeklyGoalId)
    (fun w => { w with progress := p, updatedAt := now }) st.weeklyGoals
  { st with weeklyGoals := ws }

/-- `update_goal_and_weekly_progress` (src/api/db_queries.py lines
749-762).  Its docstring says it "should be called whenever a task's
completion status changes", but no code in the repository calls it.
`task.get(...)` truthiness is modelled by comparison with the empty
string. -/
def update_goal_and_weekly_progress (st : SysState) (task : DailyTask) (now : ℤ) : SysState :=
  let st1 := if task.goalId ≠ "" then update_goal_progress st task.goalId now else st
  if task.weeklyGoalId ≠ "" then update_weekly_goal_progress st1 task.weeklyGoalId now else st1

/-- `update_task` (PATCH `/tasks/{task_id}`, src/api/routers/tasks.py lines
28-81).  `checker` models `_check_achievements_after_task_completion`: it
returns the achievements collection as left by the (possibly partial) run
of the checker body, plus the raised exception if any; the router's
`try`/`except` keeps the collection and only logs the error, so the error
component is ignored.  The dead re-`find_one` default branch (the task was
already found) and the dead `if not updated` branch are omitted; the
returned document is the updated task itself (`ReturnDocument.AFTER`). -/
def update_task (checker : SysState → List StoredAch × Option String)
    (st : SysState) (uid taskId : String) (u : UpdateTaskRequest) (now : ℤ) :
    Except ApiError (DailyTask × SysState) :=
  match st.tasks.find? (fun t => t.id == taskId) with
  | none => .error (.notFound "Task" taskId)
  | some existing =>
    match st.goals.find? (fun g => g.id == existing.goalId) with
    | none => .error (.accessDenied "Access denied to task")
    | some goal =>
      if goal.userId ≠ uid then .error (.accessDenied "Access denied to task")
      else
        let updated := applyTaskUpdate existing u now
        let st1 : SysState :=
          { st with tasks := updateFirstBy (fun t => t.id == taskId) (fun _ => updated) st.tasks }
        if u.completed = some true ∧ existing.completed = false ∧ updated.completed = true then
          let st2 : SysState := { st1 with activities := st1.activities + 1 }
          .ok (updated, { st2 with achievements := (checker st2).1 })
        else .ok (updated, st1)

/-! ### Specification-side definitions (following the words of the spec,
for comparison with the code-side functions above) -/

/-- Decomposition of a sorted date list into its maximal runs of
calendar-consecutive dates (successive dates differing by exactly one
day), following spec section 4.2. -/
def consecRuns : List ℤ → List (List ℤ)
  | [] => []
  | [d] => [[d]]
  | d :: e :: rest =>
    match consecRuns (e :: rest) with
    | [] => [[d]]
    | r :: rs => if e - d = 1 then (d :: r) :: rs else [d] :: r :: rs

/-- Spec section 4.2, longest streak: "length of the longest run of
calendar-consecutive dates across the entire sorted sequence". -/
def spec_longest_run (sortedDates : List ℤ) : ℕ :=
  ((consecRuns sortedDates).map List.length).foldr max 0

/-- Spec section 4.2, current streak when defined: "walk backward from the
most recent date while each adjacent pair differs by exactly one day,
counting inclusively starting at 1" — the length of the final maximal
consecutive run, the one containing the most recent date. -/
def spec_current_run (sortedDates : List ℤ) : ℕ :=
  ((consecRuns sortedDates).getLastD []).length

/-! ### Helper functions and lemmas about the streak loops -/

/-- The final value of `temp_streak` after running the longest-streak loop
over `l` with previous date `prev` and current value `temp`. -/
def tailRun : ℤ → ℕ → List ℤ → ℕ
  | _, temp, [] => temp
  | prev, temp, d :: rest =>
    if d - prev = 1 then tailRun d (temp + 1) rest else tailRun d 1 rest

/-- Maximum of a list of run lengths whose head run is extended by `k`
extra elements. -/
def headBoost (k : ℕ) : List ℕ → ℕ
  | [] => 0
  | n :: ns => max (k + n) (ns.foldr max 0)

theorem consecRuns_ne_nil (d : ℤ) (l : List ℤ) : consecRuns (d :: l) ≠ [] := by
  cases l with
  | nil => simp [consecRuns]
  | cons e rest =>
    rcases h : consecRuns (e :: rest) with _ | ⟨r, rs⟩ <;>
      simp [consecRuns, h] <;> split <;> simp

theorem headBoost_zero (ns : List ℕ) : headBoost 0 ns = ns.foldr max 0 := by
  cases ns <;> simp [headBoost]

theorem longestLoop_eq_headBoost (l : List ℤ) : ∀ (prev : ℤ) (acc k : ℕ),
    longestLoop prev acc (k + 1) l =
      max acc (headBoost k ((consecRuns (prev :: l)).map List.length)) := by
  induction l with
  | nil => intro prev acc k; simp [longestLoop, consecRuns, headBoost]
  | cons d rest ih =>
    intro prev acc k
    rcases h : consecRuns (d :: rest) with _ | ⟨r, rs⟩
    · exact absurd h (consecRuns_ne_nil d rest)
    · by_cases hd : d - prev = 1
      · have hruns : consecRuns (prev :: d :: rest) = (prev :: r) :: rs := by
          simp [consecRuns, h, hd]
        have hL : longestLoop prev acc (k + 1) (d :: rest) =
            longestLoop d acc (k + 1 + 1) rest := by
          simp [longestLoop, hd]
        have step := ih d acc (k + 1)
        rw [h] at step
        rw [hL, step, hruns]
        simp only [List.map_cons, headBoost, List.length_cons]
        have harith : k + 1 + r.length = k + (r.length + 1) := by omega
        rw [harith]
      · have hruns : consecRuns (prev :: d :: rest) = [prev] :: r :: rs := by
          simp [consecRuns, h, hd]
        have hL : longestLoop prev acc (k + 1) (d :: rest) =
            longestLoop d (max acc (k + 1)) 1 rest := by
          simp [longestLoop, hd]
        have step := ih d (max acc (k + 1)) 0
        simp only [Nat.zero_add] at step
        rw [h] at step
        rw [hL, step, hruns]
        simp only [List.map_cons, headBoost, headBoost_zero, List.length_cons,
          List.length_nil, Nat.zero_add, List.foldr_cons]
        rw [Nat.max_assoc]

theorem tailRun_le_longestLoop (l : List ℤ) :
    ∀ (prev : ℤ) (acc temp : ℕ), tailRun prev temp l ≤ longestLoop prev acc temp l := by
  induction l with
  | nil => intro prev acc temp; simp [tailRun, longestLoop]
  | cons d rest ih =>
    intro prev acc temp
    by_cases hd : d - prev = 1 <;> simp [tailRun, longestLoop, hd] <;> apply ih

theorem getLast?_getD_cons : ∀ (rest : List ℤ) (d a : ℤ),
    (d :: rest).getLast?.getD a = rest.getLast?.getD d
  | [], _, _ => by simp
  | e :: t, d, a => by
    rw [List.getLast?_cons_cons, getLast?_getD_cons t e a, ← getLast?_getD_cons t e d]

theorem getLastD_eq_getLast?_getD (l : List ℤ) (a : ℤ) :
    l.getLastD a = (l.getLast?).getD a := by
  cases l <;> simp [List.getLastD_eq_getLast?]

theorem tailRun_append (l : List ℤ) : ∀ (prev : ℤ) (temp : ℕ) (x : ℤ),
    tailRun prev temp (l ++ [x]) =
      if x - l.getLastD prev = 1 then tailRun prev temp l + 1 else 1 := by
  induction l with
  | nil => intro prev temp x; simp [tailRun, List.getLastD]
  | cons d rest ih =>
    intro prev temp x
    by_cases hd : d - prev = 1 <;>
      simp [tailRun, hd, ih, getLastD_eq_getLast?_getD, getLast?_getD_cons]

theorem reverse_cons_getLast {a last : ℤ} {l before : List ℤ}
    (h : (a :: l).reverse = last :: before) : l.getLastD a = last := by
  have h2 : (a :: l).getLast? = some last := by
    rw [← List.head?_reverse, h]; rfl
  have h4 := getLastD_eq_getLast?_getD (a :: l) 0
  rw [List.getLastD_cons, h2] at h4
  simpa using h4

theorem backWalkRev_cons (d : ℤ) (l : List ℤ) : backWalkRev (d :: l) = tailRun d 1 l := by
  induction l using List.reverseRecOn with
  | nil => simp [backWalkRev, backWalk, tailRun]
  | append_singleton l₂ x ih =>
    rcases hrev : (d :: l₂).reverse with _ | ⟨last, before⟩
    · exact absurd hrev (by simp)
    · have hlast := reverse_cons_getLast hrev
      have h1 : (d :: (l₂ ++ [x])).reverse = x :: last :: before := by
        have hc : d :: (l₂ ++ [x]) = (d :: l₂) ++ [x] := by simp
        rw [hc, List.reverse_append, hrev]; rfl
      have h2 : backWalkRev (d :: l₂) = backWalk last before := by
        simp [backWalkRev, hrev]
      rw [tailRun_append]
      simp only [backWalkRev, h1, backWalk, hlast]
      rw [← ih, h2]
      split <;> omega

theorem tailRun_eq_lastRun (l : List ℤ) : ∀ (prev : ℤ) (k : ℕ),
    tailRun prev (k + 1) l =
      if (consecRuns (prev :: l)).length ≤ 1
      then k + ((consecRuns (prev :: l)).getLastD []).length
      else ((consecRuns (prev :: l)).getLastD []).length := by
  induction l with
  | nil => intro prev k; simp [tailRun, consecRuns]
  | cons d rest ih =>
    intro prev k
    rcases h : consecRuns (d :: rest) with _ | ⟨r, rs⟩
    · exact absurd h (consecRuns_ne_nil d rest)
    · by_cases hd : d - prev = 1
      · have hruns : consecRuns (prev :: d :: rest) = (prev :: r) :: rs := by
          simp [consecRuns, h, hd]
        have hT : tailRun prev (k + 1) (d :: rest) = tailRun d (k + 1 + 1) rest := by
          simp [tailRun, hd]
        have step := ih d (k + 1)
        rw [h] at step
        rw [hT, step, hruns]
        rcases rs with _ | ⟨r2, rs2⟩ <;> simp [List.getLastD_cons] <;> omega
      · have hruns : consecRuns (prev :: d :: rest) = [prev] :: r :: rs := by
          simp [consecRuns, h, hd]
        have hT : tailRun prev (k + 1) (d :: rest) = tailRun d 1 rest := by
          simp [tailRun, hd]
        have step := ih d 0
        simp only [Nat.zero_add] at step
        rw [h] at step
        rw [hT, step, hruns]
        rcases rs with _ | ⟨r2, rs2⟩ <;> simp [List.getLastD_cons]

/-- C4: for every list of completion dates, `calculate_streaks` returns a
`longestStreak` equal to the length of the longest run of
calendar-consecutive dates (successive sorted dates differing by exactly
one day) over the entire sorted history; zero completion dates yield
`{current: 0, longest: 0}` and a single completion date equal to `today`
yields `{current: 1, longest: 1}`. -/
theorem longest_streak_is_longest_consecutive_run (dates : List ℤ) (today : ℤ) :
    (calculate_streaks dates today).2 =
      spec_longest_run (List.insertionSort (· ≤ ·) dates)
    ∧ calculate_streaks [] today = (0, 0)
    ∧ calculate_streaks [today] today = (1, 1) := by
  refine ⟨?_, ?_, ?_⟩
  · cases h : List.insertionSort (· ≤ ·) dates with
    | nil => simp [calculate_streaks, h, spec_longest_run, consecRuns]
    | cons d rest =>
      have hb := longestLoop_eq_headBoost rest d 0 0
      rw [headBoost_zero] at hb
      simp only [Nat.zero_add] at hb
      simp [calculate_streaks, h, spec_longest_run, hb]
  · simp [calculate_streaks, List.insertionSort]
  · simp [calculate_streaks, List.insertionSort, List.orderedInsert,
      backWalkRev, backWalk, longestLoop, List.getLastD]

/-- C5: `calculate_streaks` returns `currentStreak = 0` whenever the most
recent completion date is two or more days before `today`; when the most
recent completion date is `today` or yesterday, `currentStreak` is the
count obtained by walking backward from the most recent date while
adjacent sorted dates differ by exactly one day (the final maximal
consecutive run), counting inclusively starting at 1. -/
theorem current_streak_matches_spec (dates : List ℤ) (today d : ℤ) (rest : List ℤ)
    (hsort : List.insertionSort (· ≤ ·) dates = d :: rest) :
    (2 ≤ today - rest.getLastD d → (calculate_streaks dates today).1 = 0)
    ∧ ((today - rest.getLastD d = 0 ∨ today - rest.getLastD d = 1) →
        (calculate_streaks dates today).1 = spec_current_run (d :: rest)) := by
  constructor
  · intro hgap
    have hno : ¬(today - rest.getLastD d ≤ 1) := by omega
    simp only [calculate_streaks, hsort]
    rw [if_neg hno]
  · intro hgap
    have hle : today - rest.getLastD d ≤ 1 := by omega
    simp only [calculate_streaks, hsort]
    rw [if_pos hle, backWalkRev_cons]
    have hrun := tailRun_eq_lastRun rest d 0
    simp only [Nat.zero_add] at hrun
    rw [hrun]
    simp only [spec_current_run]
    split <;> omega

/-- Witness for `current_streak_matches_spec`: completions on days 5 and 6;
checked on day 9 the current streak is 0, checked on day 7 (one day after
the last completion) it equals the backward walk over the final run. -/
theorem current_streak_matches_spec_witness :
    (calculate_streaks [5, 6] 9).1 = 0
    ∧ (calculate_streaks [5, 6] 7).1 = spec_current_run [5, 6] :=
  ⟨(current_streak_matches_spec [5, 6] 9 5 [6] (by decide)).1 (by decide),
   (current_streak_matches_spec [5, 6] 7 5 [6] (by decide)).2 (by decide)⟩

/-- C10: for every input, the streak pair returned by `calculate_streaks`
satisfies `currentStreak ≤ longestStreak` (and both are nonnegative by
type): the backward walk counts the final maximal consecutive run, which
the longest-streak pass also considers. -/
theorem current_streak_le_longest_streak (dates : List ℤ) (today : ℤ) :
    (calculate_streaks dates today).1 ≤ (calculate_streaks dates today).2 := by
  cases h : List.insertionSort (· ≤ ·) dates with
  | nil => simp [calculate_streaks, h]
  | cons d rest =>
    simp only [calculate_streaks, h]
    by_cases hle : today - rest.getLastD d ≤ 1
    · rw [if_pos hle, backWalkRev_cons]
      exact tailRun_le_longestLoop rest d 0 1
    · rw [if_neg hle]
      exact Nat.zero_le _

/-! ### Rounding bounds and the progress calculator claims -/

theorem roundHalfEven_nonneg {n d : ℤ} (hn : 0 ≤ n) (hd : 0 < d) :
    0 ≤ roundHalfEven n d := by
  have hq : 0 ≤ n / d := Int.ediv_nonneg hn (le_of_lt hd)
  simp only [roundHalfEven]
  split_ifs <;> omega

theorem roundHalfEven_le {n d m : ℤ} (hd : 0 < d) (h : n ≤ m * d) :
    roundHalfEven n d ≤ m := by
  have hq : d * (n / d) + n % d = n := Int.ediv_add_emod n d
  have hr0 : 0 ≤ n % d := Int.emod_nonneg n (by omega)
  have hcomm : d * m = m * d := mul_comm d m
  have hqm : n / d ≤ m := by
    have hdiv := Int.ediv_le_ediv hd h
    rwa [Int.mul_ediv_cancel m (by omega)] at hdiv
  simp only [roundHalfEven]
  split_ifs with h1 h2 h3
  · exact hqm
  · by_contra hc
    have hqe : n / d = m := by omega
    rw [hqe] at hq
    linarith
  · exact hqm
  · by_contra hc
    have hqe : n / d = m := by omega
    rw [hqe] at hq
    have h2r : 2 * (n % d) = d := by omega
    linarith

theorem length_filter_and_le {α : Type} (l : List α) (p q : α → Bool) :
    (l.filter (fun a => p a && q a)).length ≤ (l.filter p).length :=
  List.Sublist.length_le (List.monotone_filter_right l (fun a ha => by
    simp only [Bool.and_eq_true] at ha
    exact ha.1))

theorem progress_formula_bounds {c t : ℕ} (hct : c ≤ t) :
    0 ≤ (if t = 0 then (0 : ℤ) else roundHalfEven (100 * (c : ℤ)) (t : ℤ))
    ∧ (if t = 0 then (0 : ℤ) else roundHalfEven (100 * (c : ℤ)) (t : ℤ)) ≤ 100 := by
  by_cases ht : t = 0
  · simp [ht]
  · have ht0 : 0 < t := Nat.pos_of_ne_zero ht
    constructor
    · rw [if_neg ht]
      exact roundHalfEven_nonneg (by positivity) (by exact_mod_cast ht0)
    · rw [if_neg ht]
      apply roundHalfEven_le (show (0 : ℤ) < t by exact_mod_cast ht0)
      have hc : (c : ℤ) ≤ (t : ℤ) := by exact_mod_cast hct
      linarith

/-- A daily-task document holding only the fields the progress calculator
reads. -/
def mkTask (i g w : String) (c : Bool) : DailyTask :=
  { id := i, goalId := g, weeklyGoalId := w, title := "t", completed := c,
    date := none, updatedAt := 0 }

/-- Four tasks of goal `g1`, three completed (spec Scenario B). -/
def exampleFourTasks : List DailyTask :=
  [mkTask "t1" "g1" "w1" true, mkTask "t2" "g1" "w1" true,
   mkTask "t3" "g1" "w1" true, mkTask "t4" "g1" "w1" false]

/-- C6: for every task list the goal and weekly-goal progress calculations
return an integer in `[0, 100]`, return 0 when the goal has no tasks, and
a goal with 4 tasks of which 3 are completed gets progress
`round(100*3/4) = 75`. -/
theorem progress_bounds_and_examples (tasks : List DailyTask) (gid wgid : String) :
    (0 ≤ calculate_goal_progress tasks gid ∧ calculate_goal_progress tasks gid ≤ 100)
    ∧ (0 ≤ calculate_weekly_goal_progress tasks wgid
        ∧ calculate_weekly_goal_progress tasks wgid ≤ 100)
    ∧ calculate_goal_progress [] gid = 0
    ∧ calculate_goal_progress exampleFourTasks "g1" = 75 := by
  refine ⟨?_, ?_, by simp [calculate_goal_progress], by decide⟩
  · have hle := length_filter_and_le tasks
      (fun t => t.goalId == gid) (fun t => t.completed)
    have hb := progress_formula_bounds hle
    simpa [calculate_goal_progress] using hb
  · have hle := length_filter_and_le tasks
      (fun t => t.weeklyGoalId == wgid) (fun t => t.completed)
    have hb := progress_formula_bounds hle
    simpa [calculate_weekly_goal_progress] using hb

/-- Eight tasks of goal `g8` / weekly goal `w8`, exactly one completed:
the completion ratio is exactly 12.5 percent. -/
def exampleEightTasks : List DailyTask :=
  [mkTask "t1" "g8" "w8" true, mkTask "t2" "g8" "w8" false,
   mkTask "t3" "g8" "w8" false, mkTask "t4" "g8" "w8" false,
   mkTask "t5" "g8" "w8" false, mkTask "t6" "g8" "w8" false,
   mkTask "t7" "g8" "w8" false, mkTask "t8" "g8" "w8" false]

/-- The owner of `exampleEightTasks`. -/
def exampleGoal8 : List Goal :=
  [{ id := "g8", userId := "u8", status := "active", progress := 0,
     createdAt := 0, updatedAt := 0 }]

/-- C8 counterexample: with 1 completed task out of 8 (12.5 percent) the
engine's progress percentage is 12, not 13 as the round-half-up claim
states — Python's `round` rounds halves to the nearest even integer. -/
theorem percentage_not_rounded_half_up :
    calculate_goal_progress exampleEightTasks "g8" = 12
    ∧ ¬ calculate_goal_progress exampleEightTasks "g8" = 13 := by decide

/-- C8 amended: every percentage produced by the engine through
`roundHalfEven` (goal/weekly-goal progress and the statistics
`successRate`) rounds halves to the nearest even integer (Python `round`
semantics): at a half point `n + 1/2 = (2n+1)/2` the result is `n` for
even `n` and `n + 1` for odd `n`; in particular 1 of 8 (12.5 percent)
yields 12 everywhere. -/
theorem percentage_rounding_half_even :
    (∀ n : ℤ, roundHalfEven (2 * n + 1) 2 = if n % 2 = 0 then n else n + 1)
    ∧ calculate_goal_progress exampleEightTasks "g8" = 12
    ∧ calculate_weekly_goal_progress exampleEightTasks "w8" = 12
    ∧ ((get_user_analytics_aggregated exampleGoal8 exampleEightTasks "u8").map
        (fun s => s.successRate)) = some 12 := by
  refine ⟨?_, by decide, by decide, by decide⟩
  intro n
  simp only [roundHalfEven]
  have hq : (2 * n + 1) / 2 = n := by omega
  have hr : (2 * n + 1) % 2 = 1 := by omega
  rw [hq, hr]
  norm_num

/-! ### Lemmas about `find?` and `updateFirstBy` (Mongo `find_one` /
`update_one` on the achievements collection) -/

theorem find?_updateFirstBy {α : Type} (p q : α → Bool) (f : α → α) :
    ∀ (l : List α) (a : α), l.find? q = some a →
    (∀ b, p b = true → q b = true) → p (f a) = true →
    (updateFirstBy q f l).find? p = some (f a)
  | [], a, h, _, _ => by simp at h
  | x :: xs, a, h, himp, hpf => by
    by_cases hqx : q x
    · have hax : a = x := by
        rw [List.find?_cons_of_pos xs hqx] at h
        exact (Option.some_inj.mp h).symm
      subst hax
      simp only [updateFirstBy, if_pos hqx]
      exact List.find?_cons_of_pos xs hpf
    · have hpx : p x = false := by
        cases hp : p x
        · rfl
        · exact absurd (himp x hp) hqx
      rw [List.find?_cons_of_neg xs hqx] at h
      simp only [updateFirstBy, if_neg hqx]
      rw [List.find?_cons_of_neg _ (by simp [hpx])]
      exact find?_updateFirstBy p q f xs a h himp hpf

theorem find?_updateFirstBy_disjoint {α : Type} (p q : α → Bool) (f : α → α) :
    ∀ l : List α, (∀ a, q a = true → p a = false) →
    (∀ a, q a = true → p (f a) = false) →
    (updateFirstBy q f l).find? p = l.find? p
  | [], _, _ => rfl
  | x :: xs, h1, h2 => by
    by_cases hqx : q x
    · simp only [updateFirstBy, if_pos hqx]
      rw [List.find?_cons_of_neg _ (by simp [h2 x hqx]),
        List.find?_cons_of_neg _ (by simp [h1 x hqx])]
    · simp only [updateFirstBy, if_neg hqx]
      by_cases hpx : p x
      · rw [List.find?_cons_of_pos _ hpx, List.find?_cons_of_pos _ hpx]
      · rw [List.find?_cons_of_neg _ hpx, List.find?_cons_of_neg _ hpx]
        exact find?_updateFirstBy_disjoint p q f xs h1 h2

theorem find?_append_singleton {α : Type} (p : α → Bool) :
    ∀ (l : List α) (x : α), l.find? p = none →
    (l ++ [x]).find? p = if p x then some x else none
  | [], x, _ => by cases hp : p x <;> simp [List.find?, hp]
  | y :: ys, x, h => by
    have hpy : p y = false := by
      cases hp : p y
      · rfl
      · rw [List.find?_cons_of_pos ys hp] at h; exact absurd h (by simp)
    rw [List.find?_cons_of_neg ys (by simp [hpy])] at h
    rw [List.cons_append, List.find?_cons_of_neg _ (by simp [hpy])]
    exact find?_append_singleton p ys x h

/-! ### C2: the unlock latch of `create_or_update_achievement` -/

/-- C2: once a stored achievement has `unlockedAt` set, any later
evaluation through `create_or_update_achievement` — with any progress
value, including progress below target — keeps `unlockedAt` unchanged on
the returned document, and the document stored for that (user,
achievement) pair is exactly the returned one: unlocking is a one-way
latch. -/
theorem unlocked_at_is_a_latch (achs : List StoredAch) (uid : String)
    (data : AchievementData) (now t : ℤ) (ex : StoredAch)
    (hfind : achs.find? (achKey uid data.achievementId) = some ex)
    (hunlocked : ex.unlockedAt = some t) :
    (create_or_update_achievement achs uid data now).1.unlockedAt = some t
    ∧ (create_or_update_achievement achs uid data now).2.find?
        (achKey uid data.achievementId) =
      some (create_or_update_achievement achs uid data now).1 := by
  have hkey : achKey uid data.achievementId ex = true := List.find?_some hfind
  simp only [create_or_update_achievement, hfind, hunlocked]
  constructor
  · simp
  · apply find?_updateFirstBy _ _ _ _ _ hfind (fun b hb => hb)
    simpa [achKey] using by simpa [achKey] using hkey

/-- A stored achievement unlocked at time 3 (target 5, progress 7). -/
def latchAch : StoredAch :=
  { id := "u_a", userId := "u", achievementId := "a", progress := some 7,
    target := some 5, unlockedAt := some 3, createdAt := 0, updatedAt := 0 }

/-- A re-evaluation of the same achievement with progress 0, below target. -/
def latchData : AchievementData :=
  { achievementId := "a", progress := some 0, target := some 5 }

/-- Witness for `unlocked_at_is_a_latch`: an achievement unlocked at time 3
re-evaluated with progress 0 below target 5 keeps `unlockedAt = 3`. -/
theorem unlocked_at_is_a_latch_witness :
    ((create_or_update_achievement [latchAch] "u" latchData 9).1.unlockedAt = some 3)
    ∧ ((create_or_update_achievement [latchAch] "u" latchData 9).2.find?
          (achKey "u" latchData.achievementId) =
        some (create_or_update_achievement [latchAch] "u" latchData 9).1) :=
  unlocked_at_is_a_latch [latchAch] "u" latchData 9 3 latchAch (by decide) (by decide)

/-! ### C3: `check_achievements` unlocks exactly once -/

theorem find?_append_singleton_of_neg {α : Type} (p : α → Bool) :
    ∀ (l : List α) (x : α), p x = false → (l ++ [x]).find? p = l.find? p
  | [], x, hx => by simp [List.find?, hx]
  | y :: ys, x, hx => by
    by_cases hpy : p y
    · rw [List.cons_append, List.find?_cons_of_pos _ hpy, List.find?_cons_of_pos _ hpy]
    · rw [List.cons_append, List.find?_cons_of_neg _ hpy, List.find?_cons_of_neg _ hpy]
      exact find?_append_singleton_of_neg p ys x hx

theorem unlockedKey_imp_achKey (uid k : String) :
    ∀ b, unlockedKey uid k b = true → achKey uid k b = true := by
  intro b hb
  simp only [unlockedKey, Bool.and_eq_true] at hb
  simp only [achKey, Bool.and_eq_true]
  tauto

theorem create_or_update_fst_id (achs : List StoredAch) (uid : String)
    (data : AchievementData) (now : ℤ) :
    (create_or_update_achievement achs uid data now).1.achievementId
      = data.achievementId := by
  cases hf : achs.find? (achKey uid data.achievementId) with
  | none => simp [create_or_update_achievement, hf]
  | some ex =>
    have hkey := List.find?_some hf
    simp only [achKey, Bool.and_eq_true, beq_iff_eq] at hkey
    simp [create_or_update_achievement, hf, hkey.2]

theorem checkStep_emits_own (uid : String) (stats : UserStats) (streaks : ℕ × ℕ)
    (now : ℤ) (achs : List StoredAch) (d : AchievementDefinition) :
    ∀ a ∈ (checkStep uid stats streaks now achs d).2, a.achievementId = d.id := by
  intro a ha
  unfold checkStep at ha
  by_cases hp : d.triggerValue ≤ evalProgress stats streaks d
  · simp only [if_pos hp] at ha
    cases hf : achs.find? (unlockedKey uid d.id) with
    | some x => rw [hf] at ha; simp at ha
    | none =>
      rw [hf] at ha
      simp only at ha
      split at ha
      · have hid := create_or_update_fst_id achs uid
          { achievementId := d.id, progress := some (evalProgress stats streaks d),
            target := some d.triggerValue } now
        simp at ha
        rw [ha, hid]
      · simp at ha
  · simp [if_neg hp] at ha

theorem checkStep_frame (uid k : String) (stats : UserStats) (streaks : ℕ × ℕ)
    (now : ℤ) (achs : List StoredAch) (d : AchievementDefinition)
    (hne : d.id ≠ k) :
    (checkStep uid stats streaks now achs d).1.find? (unlockedKey uid k)
      = achs.find? (unlockedKey uid k) := by
  unfold checkStep
  by_cases hp : d.triggerValue ≤ evalProgress stats streaks d
  · simp only [if_pos hp]
    cases hf : achs.find? (unlockedKey uid d.id) with
    | some x => rfl
    | none =>
      simp only [create_or_update_achievement]
      cases hf2 : achs.find? (achKey uid d.id) with
      | some ex =>
        have hkey := List.find?_some hf2
        simp only [achKey, Bool.and_eq_true, beq_iff_eq] at hkey
        apply find?_updateFirstBy_disjoint
        · intro a ha
          simp only [achKey, Bool.and_eq_true, beq_iff_eq] at ha
          simp [unlockedKey, ha.2, hne]
        · intro a _
          simp [unlockedKey, hkey.2, hne]
      | none =>
        apply find?_append_singleton_of_neg
        simp [unlockedKey, hne]
  · simp only [if_neg hp]

theorem checkStep_of_unlocked (uid : String) (stats : UserStats) (streaks : ℕ × ℕ)
    (now : ℤ) (achs : List StoredAch) (d : AchievementDefinition)
    (h : (achs.find? (unlockedKey uid d.id)).isSome = true) :
    checkStep uid stats streaks now achs d = (achs, []) := by
  unfold checkStep
  by_cases hp : d.triggerValue ≤ evalProgress stats streaks d
  · simp only [if_pos hp]
    rcases Option.isSome_iff_exists.mp h with ⟨a, ha⟩
    rw [ha]
  · simp only [if_neg hp]

theorem create_or_update_unlocks (achs : List StoredAch) (uid aid : String)
    (p tv now : ℤ)
    (hnone : achs.find? (unlockedKey uid aid) = none)
    (htv : tv ≤ p) :
    ((create_or_update_achievement achs uid ⟨aid, some p, some tv⟩ now).1.unlockedAt
      = some now)
    ∧ ((create_or_update_achievement achs uid ⟨aid, some p, some tv⟩ now).2.find?
        (unlockedKey uid aid)
      = some (create_or_update_achievement achs uid ⟨aid, some p, some tv⟩ now).1) := by
  cases hf2 : achs.find? (achKey uid aid) with
  | none =>
    constructor
    · simp [create_or_update_achievement, hf2, htv]
    · have h2 : (create_or_update_achievement achs uid ⟨aid, some p, some tv⟩ now).2
          = achs ++ [(create_or_update_achievement achs uid ⟨aid, some p, some tv⟩ now).1] := by
        simp [create_or_update_achievement, hf2]
      rw [h2, find?_append_singleton _ _ _ hnone]
      simp [create_or_update_achievement, hf2, htv, unlockedKey]
  | some ex =>
    have hkey := List.find?_some hf2
    simp only [achKey, Bool.and_eq_true, beq_iff_eq] at hkey
    have hexmem := List.mem_of_find?_eq_some hf2
    have hexlock : ex.unlockedAt = none := by
      have hnot := List.find?_eq_none.mp hnone ex hexmem
      simp only [unlockedKey, Bool.and_eq_true, beq_iff_eq] at hnot
      cases hopt : ex.unlockedAt
      · rfl
      · exact absurd ⟨⟨hkey.1, hkey.2⟩, by simp [hopt]⟩ hnot
    constructor
    · simp [create_or_update_achievement, hf2, hexlock, htv]
    · have h2 : (create_or_update_achievement achs uid ⟨aid, some p, some tv⟩ now).2
          = updateFirstBy (achKey uid aid)
              (fun _ => (create_or_update_achievement achs uid ⟨aid, some p, some tv⟩ now).1)
              achs := by
        simp [create_or_update_achievement, hf2]
      rw [h2]
      apply find?_updateFirstBy _ _ _ _ _ hf2 (unlockedKey_imp_achKey uid aid)
      simp [create_or_update_achievement, hf2, unlockedKey, hkey.1, hkey.2, hexlock, htv]

theorem checkStep_fires (uid : String) (stats : UserStats) (streaks : ℕ × ℕ)
    (now : ℤ) (achs : List StoredAch) (d : AchievementDefinition)
    (hnone : achs.find? (unlockedKey uid d.id) = none)
    (hprog : d.triggerValue ≤ evalProgress stats streaks d) :
    ((checkStep uid stats streaks now achs d).2.countP
        (fun a => a.achievementId == d.id) = 1)
    ∧ ((checkStep uid stats streaks now achs d).1.find?
        (unlockedKey uid d.id)).isSome = true := by
  unfold checkStep
  simp only [if_pos hprog, hnone]
  have hco := create_or_update_unlocks achs uid d.id
    (evalProgress stats streaks d) d.triggerValue now hnone hprog
  constructor
  · rw [hco.1]
    have hid := create_or_update_fst_id achs uid
      ⟨d.id, some (evalProgress stats streaks d), some d.triggerValue⟩ now
    simp [hid]
  · rw [hco.2]
    rfl

theorem check_achievements_append (uid : String) (stats : UserStats)
    (streaks : ℕ × ℕ) (now : ℤ) (l₁ l₂ : List AchievementDefinition) :
    ∀ achs : List StoredAch,
    check_achievements uid stats streaks now (l₁ ++ l₂) achs
      = ((check_achievements uid stats streaks now l₂
            (check_achievements uid stats streaks now l₁ achs).1).1,
         (check_achievements uid stats streaks now l₁ achs).2
           ++ (check_achievements uid stats streaks now l₂
            (check_achievements uid stats streaks now l₁ achs).1).2) := by
  induction l₁ with
  | nil => intro achs; simp [check_achievements]
  | cons d ds ih =>
    intro achs
    simp only [List.cons_append, check_achievements, List.append_eq]
    rw [ih]
    simp [List.append_assoc]

theorem check_achievements_frame (uid k : String) (stats : UserStats)
    (streaks : ℕ × ℕ) (now : ℤ) :
    ∀ (defs : List AchievementDefinition) (achs : List StoredAch),
    (∀ e ∈ defs, e.id ≠ k) →
    ((check_achievements uid stats streaks now defs achs).1.find? (unlockedKey uid k)
      = achs.find? (unlockedKey uid k))
    ∧ ∀ a ∈ (check_achievements uid stats streaks now defs achs).2,
        a.achievementId ≠ k := by
  intro defs
  induction defs with
  | nil => intro achs _; simp [check_achievements]
  | cons d ds ih =>
    intro achs h
    have hd : d.id ≠ k := h d (by simp)
    have hds : ∀ e ∈ ds, e.id ≠ k := fun e he => h e (by simp [he])
    simp only [check_achievements]
    constructor
    · rw [(ih _ hds).1, checkStep_frame uid k stats streaks now achs d hd]
    · intro a ha
      rcases List.mem_append.mp ha with ha | ha
      · rw [checkStep_emits_own uid stats streaks now achs d a ha]; exact hd
      · exact (ih _ hds).2 a ha

theorem check_achievements_of_unlocked (uid k : String) (stats : UserStats)
    (streaks : ℕ × ℕ) (now : ℤ) :
    ∀ (defs : List AchievementDefinition) (achs : List StoredAch),
    ((achs.find? (unlockedKey uid k)).isSome = true) →
    (((check_achievements uid stats streaks now defs achs).1.find?
        (unlockedKey uid k)).isSome = true)
    ∧ ∀ a ∈ (check_achievements uid stats streaks now defs achs).2,
        a.achievementId ≠ k := by
  intro defs
  induction defs with
  | nil => intro achs hu; simpa [check_achievements] using hu
  | cons d ds ih =>
    intro achs hu
    by_cases hdk : d.id = k
    · have hstep : checkStep uid stats streaks now achs d = (achs, []) :=
        checkStep_of_unlocked uid stats streaks now achs d (by rw [hdk]; exact hu)
      simp only [check_achievements, hstep]
      have hrec := ih achs hu
      exact ⟨hrec.1, by
        intro a ha
        simp only [List.nil_append] at ha
        exact hrec.2 a ha⟩
    · have hframe := checkStep_frame uid k stats streaks now achs d hdk
      have hu2 : (((checkStep uid stats streaks now achs d).1.find?
          (unlockedKey uid k)).isSome = true) := by rw [hframe]; exact hu
      have hrec := ih _ hu2
      simp only [check_achievements]
      refine ⟨hrec.1, ?_⟩
      intro a ha
      rcases List.mem_append.mp ha with ha | ha
      · rw [checkStep_emits_own uid stats streaks now achs d a ha]; exact hdk
      · exact hrec.2 a ha

theorem countP_zero_of_ids_ne (k : String) (l : List StoredAch)
    (h : ∀ a ∈ l, a.achievementId ≠ k) :
    l.countP (fun a => a.achievementId == k) = 0 := by
  rw [List.countP_eq_zero]
  intro a ha
  simp [h a ha]

/-- C3: for a user whose statistics meet an achievement definition's
threshold, `check_achievements` puts that achievement into
`newlyUnlocked` on the first call (exactly one entry), and a subsequent
sequential call on the resulting collection with unchanged statistics
does not report it again: each unlock appears exactly once across
repeated calls. -/
theorem check_achievements_unlocks_exactly_once
    (uid : String) (stats : UserStats) (streaks : ℕ × ℕ) (now now2 : ℤ)
    (defs : List AchievementDefinition) (achs : List StoredAch)
    (d : AchievementDefinition)
    (hmem : d ∈ defs)
    (hnodup : (defs.map (fun x => x.id)).Nodup)
    (hnotun : achs.find? (unlockedKey uid d.id) = none)
    (hprog : d.triggerValue ≤ evalProgress stats streaks d) :
    ((check_achievements uid stats streaks now defs achs).2.countP
        (fun a => a.achievementId == d.id) = 1)
    ∧ ((check_achievements uid stats streaks now2 defs
          (check_achievements uid stats streaks now defs achs).1).2.countP
        (fun a => a.achievementId == d.id) = 0) := by
  rcases List.append_of_mem hmem with ⟨l₁, l₂, rfl⟩
  have hnd := hnodup
  rw [List.map_append, List.map_cons, List.nodup_append] at hnd
  have hl1 : ∀ e ∈ l₁, e.id ≠ d.id := by
    intro e he heq
    exact hnd.2.2 (List.mem_map_of_mem _ he) (by rw [heq]; simp)
  have hl2 : ∀ e ∈ l₂, e.id ≠ d.id := by
    intro e he heq
    have hcons := hnd.2.1
    rw [List.nodup_cons] at hcons
    exact hcons.1 (heq ▸ List.mem_map_of_mem _ he)
  -- first call, decomposed as l₁, then d, then l₂
  have hA := check_achievements_frame uid d.id stats streaks now l₁ achs hl1
  have hfire := checkStep_fires uid stats streaks now
    (check_achievements uid stats streaks now l₁ achs).1 d
    (by rw [hA.1]; exact hnotun) hprog
  have hB := check_achievements_frame uid d.id stats streaks now l₂
    (checkStep uid stats streaks now
      (check_achievements uid stats streaks now l₁ achs).1 d).1 hl2
  have hrun1 : check_achievements uid stats streaks now (l₁ ++ d :: l₂) achs
      = ((check_achievements uid stats streaks now l₂
            (checkStep uid stats streaks now
              (check_achievements uid stats streaks now l₁ achs).1 d).1).1,
         (check_achievements uid stats streaks now l₁ achs).2
           ++ ((checkStep uid stats streaks now
                (check_achievements uid stats streaks now l₁ achs).1 d).2
             ++ (check_achievements uid stats streaks now l₂
                (checkStep uid stats streaks now
                  (check_achievements uid stats streaks now l₁ achs).1 d).1).2)) := by
    rw [check_achievements_append]
    simp only [check_achievements]
  constructor
  · rw [hrun1]
    simp only [List.countP_append]
    rw [countP_zero_of_ids_ne _ _ hA.2, countP_zero_of_ids_ne _ _ hB.2, hfire.1]
  · rw [hrun1]
    have hu1 : (((check_achievements uid stats streaks now l₂
        (checkStep uid stats streaks now
          (check_achievements uid stats streaks now l₁ achs).1 d).1).1.find?
        (unlockedKey uid d.id)).isSome = true) := by
      rw [hB.1]; exact hfire.2
    exact countP_zero_of_ids_ne _ _
      (check_achievements_of_unlocked uid d.id stats streaks now2 _ _ hu1).2

/-- The catalog's `first_task` definition (completed-task threshold 1). -/
def firstTaskDef : AchievementDefinition :=
  { id := "first_task", triggerType := "completed_task_count", triggerValue := 1 }

/-- A statistics snapshot after the user completes their first task. -/
def statsAfterFirstTask : UserStats :=
  { totalGoals := 1, activeGoals := 1, completedGoals := 0, pausedGoals := 0,
    totalTasks := 1, completedTasks := 1, successRate := 100, avgCompletionTime := 0 }

/-- Witness for `check_achievements_unlocks_exactly_once`: the `first_task`
achievement is reported exactly once on the first call and never on the
second. -/
theorem check_achievements_unlocks_exactly_once_witness :
    ((check_achievements "u" statsAfterFirstTask (1, 1) 0 [firstTaskDef] []).2.countP
        (fun a => a.achievementId == firstTaskDef.id) = 1)
    ∧ ((check_achievements "u" statsAfterFirstTask (1, 1) 5 [firstTaskDef]
          (check_achievements "u" statsAfterFirstTask (1, 1) 0 [firstTaskDef] []).1).2.countP
        (fun a => a.achievementId == firstTaskDef.id) = 0) :=
  check_achievements_unlocks_exactly_once "u" statsAfterFirstTask (1, 1) 0 5
    [firstTaskDef] [] firstTaskDef (by decide) (by decide) (by decide) (by decide)

/-! ### C7 and C1: the task update path -/

/-- A checker that always raises (after leaving the achievements
collection unchanged): models `_check_achievements_after_task_completion`
failing, e.g. because the statistics snapshot is unavailable. -/
def failingChecker : SysState → List StoredAch × Option String :=
  fun s => (s.achievements, some "Error checking achievements: stats unavailable")

/-- A state with one active goal `g1` of user `u1` (stored progress 0),
its weekly goal `w1`, and one not-yet-completed task `t1`. -/
def exampleGoalState : SysState :=
  { goals := [{ id := "g1", userId := "u1", status := "active", progress := 0,
                createdAt := 0, updatedAt := 0 }],
    weeklyGoals := [{ id := "w1", goalId := "g1", progress := 0, updatedAt := 0 }],
    tasks := [mkTask "t1" "g1" "w1" false],
    achievements := [], activities := 0 }

/-- The PATCH body `{"completed": true}`. -/
def completeReq : UpdateTaskRequest := { title := none, completed := some true }

/-- C7: any error raised during the post-completion achievement
evaluation neither aborts nor rolls back the task update: for every
checker the outcome of `update_task` — returned task, task store, goal
store, activity log, and ok/error status — is the one produced with a
checker that never fails, and on a concrete completion with an
always-failing checker the updated task is still returned normally. -/
theorem achievement_errors_never_abort_task_update
    (st : SysState) (uid taskId : String) (u : UpdateTaskRequest) (now : ℤ)
    (checker : SysState → List StoredAch × Option String) :
    (Except.map (fun r : DailyTask × SysState =>
        (r.1, r.2.tasks, r.2.goals, r.2.activities))
      (update_task checker st uid taskId u now)
      = Except.map (fun r : DailyTask × SysState =>
        (r.1, r.2.tasks, r.2.goals, r.2.activities))
      (update_task (fun s => (s.achievements, none)) st uid taskId u now))
    ∧ Except.map Prod.fst
        (update_task failingChecker exampleGoalState "u1" "t1" completeReq 5)
      = Except.ok { id := "t1", goalId := "g1", weeklyGoalId := "w1", title := "t",
                    completed := true, date := none, updatedAt := 5 } := by
  constructor
  · unfold update_task
    cases hf : st.tasks.find? (fun t => t.id == taskId) with
    | none => rfl
    | some existing =>
      dsimp only
      cases hg : st.goals.find? (fun g => g.id == existing.goalId) with
      | none => rfl
      | some goal =>
        dsimp only
        by_cases hu : goal.userId ≠ uid
        · simp [hu]
        · by_cases hc : u.completed = some true ∧ existing.completed = false
              ∧ (applyTaskUpdate existing u now).completed = true
          · simp [hu, hc, Except.map]
          · simp [hu, hc, Except.map]
  · rfl

/-- C1 (code bug): a task-completion PATCH through `update_task` does not
recompute the owning goal's or weekly goal's stored `progress` — after
completing the only task of goal `g1`, the stored progress of `g1` and
`w1` is still 0 while recomputation over the task store yields 100 —
although `update_goal_and_weekly_progress`, whose own docstring says it
"should be called whenever a task's completion status changes", would
write back exactly that 100. -/
theorem update_task_leaves_goal_progress_stale :
    (Except.map (fun r : DailyTask × SysState =>
        (r.2.goals.map (fun g => g.progress),
         r.2.weeklyGoals.map (fun w => w.progress),
         calculate_goal_progress r.2.tasks "g1",
         calculate_weekly_goal_progress r.2.tasks "w1"))
      (update_task (fun s => (s.achievements, none)) exampleGoalState "u1" "t1"
        completeReq 5)
      = Except.ok ([0], [0], 100, 100))
    ∧ ((update_goal_and_weekly_progress
          { exampleGoalState with tasks := [mkTask "t1" "g1" "w1" true] }
          (mkTask "t1" "g1" "w1" true) 5).goals.map (fun g => g.progress) = [100])
    ∧ ((update_goal_and_weekly_progress
          { exampleGoalState with tasks := [mkTask "t1" "g1" "w1" true] }
          (mkTask "t1" "g1" "w1" true) 5).weeklyGoals.map (fun w => w.progress)
        = [100]) := by
  refine ⟨?_, ?_, ?_⟩ <;> rfl

/-! ### C9: zero goals give an all-zero snapshot with no division -/

/-- C9: for a user with zero goals, `get_progress_stats` returns the
all-zero snapshot, and no division by zero occurs anywhere in the
computation (every division site is modelled by a checked division
returning `none` on a zero divisor, and the result is `some`). -/
theorem zero_goals_progress_stats (goals : List Goal) (tasks : List DailyTask)
    (uid : String) (today : ℤ)
    (hnone : goals.filter (fun g => g.userId == uid) = []) :
    get_progress_stats goals tasks uid today
      = some { totalGoals := 0, completedGoals := 0, activeGoals := 0,
               totalTasks := 0, completedTasks := 0, currentStreak := 0,
               longestStreak := 0, thisWeekProgress := 0,
               avgCompletionTime := 0 } := by
  simp [get_progress_stats, get_user_analytics_aggregated, calculate_streaks_user,
    hnone]

/-- Witness for `zero_goals_progress_stats`: the empty store. -/
theorem zero_goals_progress_stats_witness :
    get_progress_stats [] [] "u" 0
      = some { totalGoals := 0, completedGoals := 0, activeGoals := 0,
               totalTasks := 0, completedTasks := 0, currentStreak := 0,
               longestStreak := 0, thisWeekProgress := 0,
               avgCompletionTime := 0 } :=
  zero_goals_progress_stats [] [] "u" 0 (by decide)


end SmartGoals
